import Mathlib

/-!
Verification of the baruch-studyrooms availability monitoring and booking
engine against its specification.

The frontend dashboard (`frontend/src/components/Dashboard.tsx`) is embedded
directly from the TypeScript source.  The backend monitoring engine (Slot
Matcher, Booking Orchestrator, Check Runner, Monitoring Request Store) is
described by the API documentation and the serverless deployment guide in the
repository; its Python implementation is not part of the checked-in sources,
so those components are modelled from the specification text and the claims
about them are settled against that model.
-/

/-- `List.any` after a `List.map`, for maps that change the element type. -/
theorem list_any_map {α β : Type} (f : α → β) (p : β → Bool) (l : List α) :
    (l.map f).any p = l.any fun a => p (f a) := by
  induction l with
  | nil => rfl
  | cons x xs ih => simp [ih]

namespace Dashboard

/-- Model of the `TimeSlot` interface in `Dashboard.tsx`: one bookable unit of
one room, as delivered by `GET /api/availability`.  The `end` field of the
source is called `finish` here because `end` is a reserved word. -/
structure TimeSlot where
  available : Bool
  checksum : String
  displayTime : String
  finish : String
  itemId : Nat
  start : String
  deriving Repr, DecidableEq

/-- Model of `AvailabilityData` in `Dashboard.tsx`: a JS object keyed by room
id mapping to that room's slot array.  JS object key enumeration order is
modelled as list order, so `Object.keys` / `Object.values` are the lists of
first / second components. -/
abbrev AvailabilityData := List (String × List TimeSlot)

/-- Model of `getTimeSlots` in `Dashboard.tsx`: the display times of the first
room's slot array (empty when there are no rooms). -/
def getTimeSlots (data : AvailabilityData) : List String :=
  match data with
  | [] => []
  | (_, slots) :: _ => slots.map (·.displayTime)

/-- The inner loop shared by `handleSlotClick`, `handleTimeChange` and
`getConsolidatedAvailability` in `Dashboard.tsx`: starting from array position
`index`, the next `duration` entries of `roomSlots` all exist and are
available.  A missing entry (`undefined` in JS) counts as unavailable. -/
def hasConsecutiveAvailable (roomSlots : List TimeSlot) (index duration : Nat) : Bool :=
  (List.range duration).all fun i =>
    match roomSlots[index + i]? with
    | some s => s.available
    | none => false

/-- One entry of the consolidated availability row rendered by the dashboard. -/
structure ConsolidatedSlot where
  displayTime : String
  available : Bool
  slotIndex : Nat
  deriving Repr, DecidableEq

/-- Model of `getConsolidatedAvailability` in `Dashboard.tsx`: one entry per
time slot of the first room; an entry is available when some room has the
required number of consecutive available slots starting at that array index. -/
def getConsolidatedAvailability (data : AvailabilityData) (duration : Nat) :
    List ConsolidatedSlot :=
  (getTimeSlots data).enum.map fun p =>
    { displayTime := p.2
      available := data.any fun room => hasConsecutiveAvailable room.2 p.1 duration
      slotIndex := p.1 }

/-- Model of `handleSlotClick` in `Dashboard.tsx`: scan rooms in key order and
select, from the first room whose slot array has `duration` consecutive
available entries starting at `slotIndex`, the slot at `slotIndex`. -/
def handleSlotClick (data : AvailabilityData) (slotIndex duration : Nat) :
    Option (String × TimeSlot) :=
  data.findSome? fun room =>
    if hasConsecutiveAvailable room.2 slotIndex duration then
      (room.2[slotIndex]?).map fun s => (room.1, s)
    else none

/-- The per-room availability flags, in room key order: the only part of the
data that `getConsolidatedAvailability` actually inspects. -/
def availabilityFlags (data : AvailabilityData) : List (List Bool) :=
  data.map fun room => room.2.map (·.available)

theorem hasConsecutiveAvailable_iff (roomSlots : List TimeSlot) (index duration : Nat) :
    hasConsecutiveAvailable roomSlots index duration = true ↔
      ∀ j < duration, ∃ s, roomSlots[index + j]? = some s ∧ s.available = true := by
  unfold hasConsecutiveAvailable
  rw [List.all_eq_true]
  constructor
  · intro h j hj
    have := h j (List.mem_range.mpr hj)
    cases hg : roomSlots[index + j]? with
    | none => rw [hg] at this; exact absurd this (by simp)
    | some s => exact ⟨s, rfl, by rw [hg] at this; exact this⟩
  · intro h j hj
    obtain ⟨s, hg, ha⟩ := h j (List.mem_range.mp hj)
    rw [hg]
    exact ha

theorem hasConsecutiveAvailable_first (roomSlots : List TimeSlot) (index duration : Nat)
    (hd : 1 ≤ duration) (h : hasConsecutiveAvailable roomSlots index duration = true) :
    ∃ s, roomSlots[index]? = some s ∧ s.available = true := by
  have := (hasConsecutiveAvailable_iff roomSlots index duration).mp h 0 hd
  simpa using this

theorem handleSlotClick_isSome_iff (data : AvailabilityData) (slotIndex duration : Nat)
    (hd : 1 ≤ duration) :
    (handleSlotClick data slotIndex duration).isSome = true ↔
      (data.any fun room => hasConsecutiveAvailable room.2 slotIndex duration) = true := by
  induction data with
  | nil => simp [handleSlotClick]
  | cons room rest ih =>
    rw [handleSlotClick, List.findSome?_cons, List.any_cons]
    by_cases hc : hasConsecutiveAvailable room.2 slotIndex duration = true
    · obtain ⟨s, hg, _⟩ := hasConsecutiveAvailable_first room.2 slotIndex duration hd hc
      simp [hc, hg]
    · simp only [hc, Bool.false_eq_true, if_false, Bool.false_or]
      simpa [handleSlotClick] using ih

theorem getConsolidatedAvailability_getElem? (data : AvailabilityData) (duration i : Nat) :
    (getConsolidatedAvailability data duration)[i]? =
      ((getTimeSlots data)[i]?).map fun t =>
        { displayTime := t
          available := data.any fun room => hasConsecutiveAvailable room.2 i duration
          slotIndex := i } := by
  unfold getConsolidatedAvailability
  rw [List.getElem?_map, List.getElem?_enum]
  cases (getTimeSlots data)[i]? <;> simp

theorem hasConsecutiveAvailable_eq_flags (slots : List TimeSlot) (i d : Nat) :
    hasConsecutiveAvailable slots i d =
      ((List.range d).all fun j => ((slots.map (·.available))[i + j]?).getD false) := by
  unfold hasConsecutiveAvailable
  congr 1
  funext j
  rw [List.getElem?_map]
  cases slots[i + j]? <;> rfl

theorem any_hasConsecutive_eq_flags (data : AvailabilityData) (i d : Nat) :
    (data.any fun room => hasConsecutiveAvailable room.2 i d) =
      ((availabilityFlags data).any fun flags =>
        (List.range d).all fun j => (flags[i + j]?).getD false) := by
  unfold availabilityFlags
  rw [list_any_map]
  congr 1
  funext room
  exact hasConsecutiveAvailable_eq_flags room.2 i d

theorem getTimeSlots_length_eq_flags (data : AvailabilityData) :
    (getTimeSlots data).length = ((availabilityFlags data).headD []).length := by
  cases data <;> simp [getTimeSlots, availabilityFlags]

theorem consolidated_available_eq_flags (data : AvailabilityData) (d : Nat) :
    (getConsolidatedAvailability data d).map (·.available) =
      (List.range ((availabilityFlags data).headD []).length).map fun i =>
        (availabilityFlags data).any fun flags =>
          (List.range d).all fun j => (flags[i + j]?).getD false := by
  unfold getConsolidatedAvailability
  rw [List.map_map]
  have h1 : ((fun c : ConsolidatedSlot => c.available) ∘ fun p : Nat × String =>
      ConsolidatedSlot.mk p.2 (data.any fun room => hasConsecutiveAvailable room.2 p.1 d) p.1) =
      (fun i => (availabilityFlags data).any fun flags =>
        (List.range d).all fun j => (flags[i + j]?).getD false) ∘ Prod.fst := by
    funext p
    exact any_hasConsecutive_eq_flags data p.1 d
  rw [h1, ← List.map_map, List.enum_map_fst, getTimeSlots_length_eq_flags]

/-- A two-room availability fixture used to instantiate the dashboard
theorems on concrete data. -/
def sampleData : AvailabilityData :=
  [("142254",
    [{ available := true, checksum := "c1", displayTime := "1:00 PM",
       finish := "2025-06-24 14:00:00", itemId := 142254, start := "2025-06-24 13:00:00" },
     { available := false, checksum := "c2", displayTime := "2:00 PM",
       finish := "2025-06-24 15:00:00", itemId := 142254, start := "2025-06-24 14:00:00" }]),
   ("142255",
    [{ available := false, checksum := "c3", displayTime := "1:00 PM",
       finish := "2025-06-24 14:00:00", itemId := 142255, start := "2025-06-24 13:00:00" },
     { available := true, checksum := "c4", displayTime := "2:00 PM",
       finish := "2025-06-24 15:00:00", itemId := 142255, start := "2025-06-24 14:00:00" }])]

/-- C10: for a selected duration `d ≥ 1`, `getConsolidatedAvailability` has one
entry per slot of the first room (in key order), the entry at index `i` carries
that slot's display time and index, it is marked available exactly when some
room's slot list has entries at all indices `i … i + d - 1` that are all
available — equivalently, exactly when `handleSlotClick` at that index finds a
room with `d` consecutive available slots — and the availability marks depend
only on the per-room availability flags, never on the slot timestamps. -/
theorem consolidatedAvailability_correct (data : AvailabilityData) (duration : Nat)
    (hd : 1 ≤ duration) :
    (getConsolidatedAvailability data duration).length = (getTimeSlots data).length
    ∧ (∀ i e, (getConsolidatedAvailability data duration)[i]? = some e →
        e.slotIndex = i ∧ (getTimeSlots data)[i]? = some e.displayTime
        ∧ (e.available = true ↔
            ∃ room ∈ data, ∀ j < duration,
              ∃ s, room.2[i + j]? = some s ∧ s.available = true)
        ∧ (e.available = true ↔ (handleSlotClick data i duration).isSome = true))
    ∧ ∀ data₂ : AvailabilityData, availabilityFlags data = availabilityFlags data₂ →
        (getConsolidatedAvailability data duration).map (·.available) =
          (getConsolidatedAvailability data₂ duration).map (·.available) := by
  refine ⟨?_, ?_, ?_⟩
  · unfold getConsolidatedAvailability
    rw [List.length_map, List.enum_length]
  · intro i e he
    rw [getConsolidatedAvailability_getElem?] at he
    cases hg : (getTimeSlots data)[i]? with
    | none => rw [hg] at he; exact absurd he (by simp)
    | some t =>
      rw [hg, Option.map_some'] at he
      injection he with he
      subst he
      refine ⟨rfl, rfl, ?_, ?_⟩
      · rw [List.any_eq_true]
        constructor
        · rintro ⟨room, hmem, hc⟩
          exact ⟨room, hmem, (hasConsecutiveAvailable_iff room.2 i duration).mp hc⟩
        · rintro ⟨room, hmem, hc⟩
          exact ⟨room, hmem, (hasConsecutiveAvailable_iff room.2 i duration).mpr hc⟩
      · rw [handleSlotClick_isSome_iff data i duration hd]
  · intro data₂ hflags
    rw [consolidated_available_eq_flags, consolidated_available_eq_flags, hflags]

/-- Instantiation of `consolidatedAvailability_correct` on the fixture with
duration 1. -/
theorem consolidatedAvailability_correct_witness :
    (getConsolidatedAvailability sampleData 1).length = (getTimeSlots sampleData).length :=
  (consolidatedAvailability_correct sampleData 1 (by decide)).1

/-- Value of JS `parseInt` on a string with a decimal-digit head, accumulator
form: consume leading digits, ignore the rest. -/
def parseDigits : List Char → Nat → Nat
  | c :: cs, acc => if c.isDigit then parseDigits cs (acc * 10 + (c.toNat - '0'.toNat)) else acc
  | [], acc => acc

/-- Model of JS `parseInt` as used in `Dashboard.tsx`: every call site passes a
string of one or more decimal digits, on which `parseInt` returns the value of
the digit head. -/
def jsParseIntNat (s : String) : Nat := parseDigits s.data 0

/-- Model of JS `padStart(2, '0')`. -/
def padStart2 (s : String) : String :=
  if s.length ≥ 2 then s else if s.length = 1 then "0" ++ s else "00"

/-- JS `String.prototype.split` with a one-character separator, on character
lists: `"a:b".split(':') = ["a","b"]`, `"".split(':') = [""]`. -/
def splitOnChar (sep : Char) : List Char → List (List Char)
  | [] => [[]]
  | c :: cs =>
    if c = sep then [] :: splitOnChar sep cs
    else
      match splitOnChar sep cs with
      | g :: gs => (c :: g) :: gs
      | [] => [[c]]

/-- Model of `convertToDisplayTime` in `Dashboard.tsx`: split at `:`, read the
hour, convert to 12-hour clock and append the period.  A missing second
component is JS `undefined`, which the template literal would interpolate as
the text `undefined`. -/
def convertToDisplayTime (time24 : String) : String :=
  let parts := splitOnChar ':' time24.data
  let hours := parts.headD []
  let minutes := String.mk ((parts[1]?).getD "undefined".data)
  let hour := parseDigits hours 0
  let period := if hour ≥ 12 then "PM" else "AM"
  let hour12 := if hour = 0 then 12 else if hour > 12 then hour - 12 else hour
  toString hour12 ++ ":" ++ minutes ++ " " ++ period

/-- The whitespace class of the `\s` in the `Dashboard.tsx` regex
`/(\d{1,2}):(\d{2})\s*(AM|PM)/i`, restricted to the ASCII whitespace
characters. -/
def jsWhitespace (c : Char) : Bool :=
  c = ' ' || c = '\t' || c = '\n' || c = '\x0d' || c = '\x0b' || c = '\x0c'

/-- Greedy `\s*`: drop the longest whitespace head. -/
def skipWs : List Char → List Char
  | c :: cs => if jsWhitespace c then skipWs cs else c :: cs
  | [] => []

/-- The `(AM|PM)` tail of the regex, case-insensitive; `true` means PM. -/
def matchPeriod : List Char → Option Bool
  | p :: m :: _ =>
    if (p = 'A' ∨ p = 'a') ∧ (m = 'M' ∨ m = 'm') then some false
    else if (p = 'P' ∨ p = 'p') ∧ (m = 'M' ∨ m = 'm') then some true
    else none
  | _ => none

/-- The `:(\d{2})\s*(AM|PM)` tail of the regex, run right after the hour
digits: returns the minutes text and the period. -/
def matchTail : List Char → Option (String × Bool)
  | ':' :: m1 :: m2 :: rest =>
    if m1.isDigit ∧ m2.isDigit then
      (matchPeriod (skipWs rest)).map fun pm => (String.mk [m1, m2], pm)
    else none
  | _ => none

/-- One attempt of the regex `(\d{1,2}):(\d{2})\s*(AM|PM)` anchored at the
head of the list: the greedy `\d{1,2}` takes two digits when the tail then
matches and backtracks to one digit otherwise. -/
def matchAt : List Char → Option (String × String × Bool)
  | d1 :: rest =>
    if d1.isDigit then
      match rest with
      | d2 :: rest2 =>
        if d2.isDigit then
          match matchTail rest2 with
          | some (m, pm) => some (String.mk [d1, d2], m, pm)
          | none => (matchTail rest).map fun q => (String.mk [d1], q.1, q.2)
        else (matchTail rest).map fun q => (String.mk [d1], q.1, q.2)
      | [] => none
    else none
  | [] => none

/-- Model of `displayTime.match(/(\d{1,2}):(\d{2})\s*(AM|PM)/i)`: the leftmost
match of the pattern, scanning start positions left to right. -/
def find12h : List Char → Option (String × String × Bool)
  | [] => none
  | c :: cs =>
    match matchAt (c :: cs) with
    | some r => some r
    | none => find12h cs

/-- Model of `convertTo24Hour` in `Dashboard.tsx`: on a regex match, convert
the matched 12-hour time to a zero-padded 24-hour `HH:MM`; with no match,
return the default `09:00`. -/
def convertTo24Hour (displayTime : String) : String :=
  match find12h displayTime.data with
  | none => "09:00"
  | some (hoursStr, minutesStr, isPM) =>
    let hour := jsParseIntNat hoursStr
    let hour24 := if isPM ∧ hour ≠ 12 then hour + 12
                  else if ¬isPM ∧ hour = 12 then 0
                  else hour
    padStart2 (toString hour24) ++ ":" ++ minutesStr

/-- The 24-hour `HH:MM` strings of the round-trip claim: zero-padded two-digit
hour and two-digit minutes. -/
def pad2Time (h m : Nat) : String :=
  padStart2 (toString h) ++ ":" ++ padStart2 (toString m)

/-- A character list that the `Dashboard.tsx` regex
`/(\d{1,2}):(\d{2})\s*(AM|PM)/i` matches in full: one or two hour digits, a
colon, two minute digits, whitespace, and a case-insensitive period. -/
def IsTwelveHourClock (mid : List Char) : Prop :=
  ∃ (hs ms ws : List Char) (p1 p2 : Char),
    mid = hs ++ [':'] ++ ms ++ ws ++ [p1, p2]
    ∧ (hs.length = 1 ∨ hs.length = 2) ∧ (∀ c ∈ hs, c.isDigit = true)
    ∧ ms.length = 2 ∧ (∀ c ∈ ms, c.isDigit = true)
    ∧ (∀ c ∈ ws, jsWhitespace c = true)
    ∧ ((p1 = 'A' ∨ p1 = 'a') ∨ (p1 = 'P' ∨ p1 = 'p'))
    ∧ (p2 = 'M' ∨ p2 = 'm')

/-- The string contains a 12-hour `H:MM AM/PM` pattern somewhere. -/
def ContainsTwelveHour (s : String) : Prop :=
  ∃ pre mid suf, s.data = pre ++ mid ++ suf ∧ IsTwelveHourClock mid

theorem skipWs_decomp (cs : List Char) :
    ∃ ws rest, cs = ws ++ rest ∧ skipWs cs = rest ∧ ∀ c ∈ ws, jsWhitespace c = true := by
  induction cs with
  | nil => exact ⟨[], [], rfl, rfl, by simp⟩
  | cons c cs ih =>
    by_cases h : jsWhitespace c = true
    · obtain ⟨ws, rest, h1, h2, h3⟩ := ih
      refine ⟨c :: ws, rest, by rw [List.cons_append, ← h1], ?_, ?_⟩
      · rw [skipWs, if_pos h]
        exact h2
      · intro x hx
        rcases List.mem_cons.mp hx with rfl | hx
        · exact h
        · exact h3 x hx
    · refine ⟨[], c :: cs, rfl, ?_, by simp⟩
      rw [skipWs, if_neg h]

theorem skipWs_ws_append (ws : List Char) (p : Char) (tl : List Char)
    (hws : ∀ c ∈ ws, jsWhitespace c = true) (hp : jsWhitespace p = false) :
    skipWs (ws ++ p :: tl) = p :: tl := by
  induction ws with
  | nil =>
    rw [List.nil_append, skipWs, if_neg]
    rw [hp]
    simp
  | cons w ws ih =>
    rw [List.cons_append, skipWs, if_pos (hws w (List.mem_cons_self w ws))]
    exact ih fun c hc => hws c (List.mem_cons_of_mem w hc)

theorem matchPeriod_sound (cs : List Char) (pm : Bool) (h : matchPeriod cs = some pm) :
    ∃ p1 p2 suf, cs = p1 :: p2 :: suf
      ∧ ((p1 = 'A' ∨ p1 = 'a') ∨ (p1 = 'P' ∨ p1 = 'p')) ∧ (p2 = 'M' ∨ p2 = 'm') := by
  match cs with
  | [] => simp [matchPeriod] at h
  | [p] => simp [matchPeriod] at h
  | p :: m :: suf =>
    refine ⟨p, m, suf, rfl, ?_⟩
    have hred : matchPeriod (p :: m :: suf) =
        if (p = 'A' ∨ p = 'a') ∧ (m = 'M' ∨ m = 'm') then some false
        else if (p = 'P' ∨ p = 'p') ∧ (m = 'M' ∨ m = 'm') then some true
        else none := rfl
    rw [hred] at h
    split_ifs at h with h1 h2
    · exact ⟨Or.inl h1.1, h1.2⟩
    · exact ⟨Or.inr h2.1, h2.2⟩

theorem matchPeriod_complete (p1 p2 : Char) (suf : List Char)
    (hp1 : (p1 = 'A' ∨ p1 = 'a') ∨ (p1 = 'P' ∨ p1 = 'p')) (hp2 : p2 = 'M' ∨ p2 = 'm') :
    ∃ pm, matchPeriod (p1 :: p2 :: suf) = some pm := by
  rcases hp1 with (rfl | rfl) | (rfl | rfl) <;> rcases hp2 with rfl | rfl <;>
    first
      | exact ⟨false, rfl⟩
      | exact ⟨true, rfl⟩

theorem period_not_whitespace (p1 : Char)
    (hp1 : (p1 = 'A' ∨ p1 = 'a') ∨ (p1 = 'P' ∨ p1 = 'p')) : jsWhitespace p1 = false := by
  rcases hp1 with (rfl | rfl) | (rfl | rfl) <;> rfl

theorem matchTail_sound (cs : List Char) (m : String) (pm : Bool)
    (h : matchTail cs = some (m, pm)) :
    ∃ m1 m2 ws p1 p2 suf,
      cs = ':' :: m1 :: m2 :: (ws ++ p1 :: p2 :: suf)
      ∧ m1.isDigit = true ∧ m2.isDigit = true ∧ m = String.mk [m1, m2]
      ∧ (∀ c ∈ ws, jsWhitespace c = true)
      ∧ ((p1 = 'A' ∨ p1 = 'a') ∨ (p1 = 'P' ∨ p1 = 'p')) ∧ (p2 = 'M' ∨ p2 = 'm') := by
  unfold matchTail at h
  split at h
  case h_2 => exact absurd h (by simp)
  case h_1 m1 m2 rest =>
    split_ifs at h with hd
    rw [Option.map_eq_some'] at h
    obtain ⟨pm', hper, heq⟩ := h
    injection heq with heq1 heq2
    obtain ⟨ws, rest', hsplit, hskip, hwsall⟩ := skipWs_decomp rest
    rw [hskip] at hper
    obtain ⟨p1, p2, suf, hrest', hp1, hp2⟩ := matchPeriod_sound rest' pm' hper
    refine ⟨m1, m2, ws, p1, p2, suf, ?_, hd.1, hd.2, heq1.symm, hwsall, hp1, hp2⟩
    rw [hsplit, hrest']

theorem matchTail_complete (m1 m2 : Char) (ws : List Char) (p1 p2 : Char) (suf : List Char)
    (hm1 : m1.isDigit = true) (hm2 : m2.isDigit = true)
    (hws : ∀ c ∈ ws, jsWhitespace c = true)
    (hp1 : (p1 = 'A' ∨ p1 = 'a') ∨ (p1 = 'P' ∨ p1 = 'p')) (hp2 : p2 = 'M' ∨ p2 = 'm') :
    ∃ pm, matchTail (':' :: m1 :: m2 :: (ws ++ p1 :: p2 :: suf)) = some (String.mk [m1, m2], pm) := by
  obtain ⟨pm, hpm⟩ := matchPeriod_complete p1 p2 suf hp1 hp2
  refine ⟨pm, ?_⟩
  have hred : matchTail (':' :: m1 :: m2 :: (ws ++ p1 :: p2 :: suf)) =
      if m1.isDigit = true ∧ m2.isDigit = true then
        (matchPeriod (skipWs (ws ++ p1 :: p2 :: suf))).map fun pm => (String.mk [m1, m2], pm)
      else none := rfl
  rw [hred, if_pos ⟨hm1, hm2⟩,
    skipWs_ws_append ws p1 (p2 :: suf) hws (period_not_whitespace p1 hp1), hpm]
  rfl

theorem matchAt_sound_one_digit (d1 : Char) (rest : List Char) (q : String × Bool)
    (hd1 : d1.isDigit = true) (h : matchTail rest = some q) :
    ∃ mid suf, d1 :: rest = mid ++ suf ∧ IsTwelveHourClock mid := by
  obtain ⟨m1, m2, ws, p1, p2, suf, hrest, hm1, hm2, _, hws, hp1, hp2⟩ :=
    matchTail_sound rest q.1 q.2 (by rw [h])
  refine ⟨[d1] ++ [':'] ++ [m1, m2] ++ ws ++ [p1, p2], suf, ?_, ?_⟩
  · rw [hrest]; simp
  · exact ⟨[d1], [m1, m2], ws, p1, p2, rfl, Or.inl rfl, by simpa using hd1, rfl,
      by simp [hm1, hm2], hws, hp1, hp2⟩

theorem matchAt_sound (cs : List Char) (r : String × String × Bool) (h : matchAt cs = some r) :
    ∃ mid suf, cs = mid ++ suf ∧ IsTwelveHourClock mid := by
  unfold matchAt at h
  split at h
  · rename_i d1 rest
    split_ifs at h with hd1
    split at h
    · rename_i d2 rest2
      by_cases hd2 : d2.isDigit = true
      · rw [if_pos hd2] at h
        split at h
        · rename_i m pm htail
          obtain ⟨m1, m2, ws, p1, p2, suf, hrest2, hm1, hm2, _, hws, hp1, hp2⟩ :=
            matchTail_sound rest2 m pm htail
          refine ⟨[d1, d2] ++ [':'] ++ [m1, m2] ++ ws ++ [p1, p2], suf, ?_, ?_⟩
          · rw [hrest2]; simp
          · exact ⟨[d1, d2], [m1, m2], ws, p1, p2, rfl, Or.inr rfl,
              by simp [hd1, hd2], rfl, by simp [hm1, hm2], hws, hp1, hp2⟩
        · rw [Option.map_eq_some'] at h
          obtain ⟨q, htail, _⟩ := h
          exact matchAt_sound_one_digit d1 (d2 :: rest2) q hd1 htail
      · rw [if_neg hd2] at h
        rw [Option.map_eq_some'] at h
        obtain ⟨q, htail, _⟩ := h
        exact matchAt_sound_one_digit d1 (d2 :: rest2) q hd1 htail
    · exact absurd h (by simp)
  · exact absurd h (by simp)

theorem matchAt_complete (mid suf : List Char) (h : IsTwelveHourClock mid) :
    (matchAt (mid ++ suf)).isSome = true := by
  obtain ⟨hs, ms, ws, p1, p2, hmid, hlen, hdig, hmslen, hmsdig, hws, hp1, hp2⟩ := h
  obtain ⟨m1, m2, rfl⟩ : ∃ m1 m2, ms = [m1, m2] := by
    rcases ms with _ | ⟨m1, _ | ⟨m2, _ | _⟩⟩ <;> simp_all
  have hm1 : m1.isDigit = true := hmsdig m1 (by simp)
  have hm2 : m2.isDigit = true := hmsdig m2 (by simp)
  rcases hlen with h1 | h2
  · obtain ⟨d1, rfl⟩ : ∃ d1, hs = [d1] := by
      rcases hs with _ | ⟨d1, _ | _⟩ <;> simp_all
    have hd1 : d1.isDigit = true := hdig d1 (by simp)
    obtain ⟨pm, hpm⟩ := matchTail_complete m1 m2 ws p1 p2 suf hm1 hm2 hws hp1 hp2
    have hshape : mid ++ suf = d1 :: ':' :: m1 :: m2 :: (ws ++ p1 :: p2 :: suf) := by
      rw [hmid]; simp
    rw [hshape]
    have hred : matchAt (d1 :: ':' :: m1 :: m2 :: (ws ++ p1 :: p2 :: suf)) =
        if d1.isDigit = true then
          if (':' : Char).isDigit = true then
            match matchTail (m1 :: m2 :: (ws ++ p1 :: p2 :: suf)) with
            | some (m, pm) => some (String.mk [d1, ':'], m, pm)
            | none => (matchTail (':' :: m1 :: m2 :: (ws ++ p1 :: p2 :: suf))).map
                fun q => (String.mk [d1], q.1, q.2)
          else (matchTail (':' :: m1 :: m2 :: (ws ++ p1 :: p2 :: suf))).map
              fun q => (String.mk [d1], q.1, q.2)
        else none := rfl
    rw [hred, if_pos hd1, if_neg (by decide : ¬(':' : Char).isDigit = true), hpm]
    rfl
  · obtain ⟨d1, d2, rfl⟩ : ∃ d1 d2, hs = [d1, d2] := by
      rcases hs with _ | ⟨d1, _ | ⟨d2, _ | _⟩⟩ <;> simp_all
    have hd1 : d1.isDigit = true := hdig d1 (by simp)
    have hd2 : d2.isDigit = true := hdig d2 (by simp)
    obtain ⟨pm, hpm⟩ := matchTail_complete m1 m2 ws p1 p2 suf hm1 hm2 hws hp1 hp2
    have hshape : mid ++ suf = d1 :: d2 :: ':' :: m1 :: m2 :: (ws ++ p1 :: p2 :: suf) := by
      rw [hmid]; simp
    rw [hshape]
    have hred : matchAt (d1 :: d2 :: ':' :: m1 :: m2 :: (ws ++ p1 :: p2 :: suf)) =
        if d1.isDigit = true then
          if d2.isDigit = true then
            match matchTail (':' :: m1 :: m2 :: (ws ++ p1 :: p2 :: suf)) with
            | some (m, pm) => some (String.mk [d1, d2], m, pm)
            | none => (matchTail (d2 :: ':' :: m1 :: m2 :: (ws ++ p1 :: p2 :: suf))).map
                fun q => (String.mk [d1], q.1, q.2)
          else (matchTail (d2 :: ':' :: m1 :: m2 :: (ws ++ p1 :: p2 :: suf))).map
              fun q => (String.mk [d1], q.1, q.2)
        else none := rfl
    rw [hred, if_pos hd1, if_pos hd2, hpm]
    rfl

theorem find12h_sound (cs : List Char) (r : String × String × Bool)
    (h : find12h cs = some r) :
    ∃ pre mid suf, cs = pre ++ mid ++ suf ∧ IsTwelveHourClock mid := by
  induction cs with
  | nil => simp [find12h] at h
  | cons c cs ih =>
    rw [find12h] at h
    split at h
    case h_1 r' heq =>
      obtain ⟨mid, suf, hsplit, hpat⟩ := matchAt_sound (c :: cs) r' heq
      exact ⟨[], mid, suf, by rw [List.nil_append, hsplit], hpat⟩
    case h_2 =>
      obtain ⟨pre, mid, suf, hsplit, hpat⟩ := ih h
      exact ⟨c :: pre, mid, suf, by rw [hsplit]; rfl, hpat⟩

theorem find12h_complete (pre mid suf : List Char) (h : IsTwelveHourClock mid) :
    (find12h (pre ++ mid ++ suf)).isSome = true := by
  induction pre with
  | nil =>
    rw [List.nil_append]
    obtain ⟨r, hr⟩ := Option.isSome_iff_exists.mp (matchAt_complete mid suf h)
    obtain ⟨m0, mrest, rfl⟩ : ∃ m0 mrest, mid = m0 :: mrest := by
      obtain ⟨hs, ms, ws, p1, p2, hmid, hlen, _⟩ := h
      rcases hs with _ | ⟨d1, hsrest⟩
      · simp at hlen
      · exact ⟨d1, _, by rw [hmid]; rfl⟩
    rw [List.cons_append] at hr ⊢
    rw [find12h, hr]
    rfl
  | cons c pre ih =>
    rw [List.cons_append, List.cons_append, find12h]
    split
    · rfl
    · rw [← List.cons_append, ← List.cons_append] at *
      simpa using ih

end Dashboard

set_option maxRecDepth 100000

namespace Dashboard

/-- C9: the dashboard time-format conversions round-trip — for every 24-hour
time string `HH:MM` with zero-padded two-digit hour 00–23 and two-digit
minutes, `convertTo24Hour (convertToDisplayTime t) = t` — and on any input
string with no 12-hour `H:MM AM/PM` pattern, `convertTo24Hour` totally
returns the default `09:00` instead of failing. -/
theorem timeConversion_roundtrip :
    (∀ h < 24, ∀ m < 100,
      convertTo24Hour (convertToDisplayTime (pad2Time h m)) = pad2Time h m)
    ∧ ∀ s : String, ¬ ContainsTwelveHour s → convertTo24Hour s = "09:00" := by
  constructor
  · decide
  · intro s hs
    unfold convertTo24Hour
    cases hf : find12h s.data with
    | none => rfl
    | some r =>
      obtain ⟨pre, mid, suf, h1, h2⟩ := find12h_sound s.data r hf
      exact absurd ⟨pre, mid, suf, h1, h2⟩ hs

/-- Instantiation of `timeConversion_roundtrip` at `13:30` and at a string
with no 12-hour pattern. -/
theorem timeConversion_roundtrip_witness :
    convertTo24Hour (convertToDisplayTime (pad2Time 13 30)) = pad2Time 13 30
    ∧ convertTo24Hour "hello" = "09:00" := by
  constructor
  · exact timeConversion_roundtrip.1 13 (by decide) 30 (by decide)
  · refine timeConversion_roundtrip.2 "hello" ?_
    intro hcon
    obtain ⟨pre, mid, suf, h1, h2⟩ := hcon
    have hsome := find12h_complete pre mid suf h2
    rw [← h1] at hsome
    exact absurd hsome (by decide)

end Dashboard



namespace Engine

/-- Modelled from the spec: `AvailabilitySlot` (§3) — one bookable unit for
one room, with timestamps as naturals, the upstream checksum token, and the
derived availability flag.  The `end` field of the spec is called `finish`
here because `end` is a reserved word.  The backend implementation is not
among the checked-in sources. -/
structure AvailabilitySlot where
  roomId : Nat
  start : Nat
  finish : Nat
  checksum : String
  isAvailable : Bool
  deriving Repr, DecidableEq

/-- Availability keyed by room id, as returned by `fetchAvailability`. -/
abbrev Availability := List (Nat × List AvailabilitySlot)

/-- Modelled from the spec: `MatchResult` (§4.2) — `Found(roomId, startTime,
slotChecksums[])` or `NotFound`. -/
inductive MatchResult where
  | Found (roomId : Nat) (startTime : Nat) (slotChecksums : List String)
  | NotFound
  deriving Repr, DecidableEq

/-- Each slot's `end` equals the next slot's `start`: the contiguity test of
the Slot Matcher (§4.2). -/
def contiguousRun : List AvailabilitySlot → Bool
  | [] => true
  | [_] => true
  | a :: b :: rest => decide (a.finish = b.start) && contiguousRun (b :: rest)

/-- Modelled from the spec: the per-index test of the Slot Matcher (§4.2) —
the `durationHours` slots starting at index `i` are all present, contiguous,
within `[windowStart, windowEnd]`, and all `isAvailable`. -/
def qualifiesAt (slots : List AvailabilitySlot) (ws we d i : Nat) : Bool :=
  let chunk := (slots.drop i).take d
  decide (chunk.length = d) && contiguousRun chunk
    && chunk.all (fun s => decide (ws ≤ s.start) && decide (s.finish ≤ we))
    && chunk.all (·.isAvailable)

/-- The first index of `slots` at which a qualifying run starts. -/
def findIndexQualifying (slots : List AvailabilitySlot) (ws we d : Nat) : Option Nat :=
  (List.range slots.length).find? fun i => qualifiesAt slots ws we d i

/-- Modelled from the spec: the room filter of the Slot Matcher (§4.2) —
restricted to `roomPreference` when one is given. -/
def prefFilter (availability : Availability) (pref : Option Nat) : Availability :=
  match pref with
  | some r => availability.filter fun room => decide (room.1 = r)
  | none => availability

/-- Modelled from the spec: rooms are evaluated in a fixed, deterministic
ascending `roomId` order (§4.2). -/
def roomScanList (availability : Availability) (pref : Option Nat) : Availability :=
  List.insertionSort (fun a b => a.1 ≤ b.1) (prefFilter availability pref)

/-- Modelled from the spec: `match` of the Slot Matcher (§4.2) — scan the
preference-filtered rooms in ascending `roomId` order, find in each room the
first qualifying start index, return the first room that has one, with the
matched start time and the checksums of the matched run. -/
def slotMatch (availability : Availability) (ws we d : Nat) (pref : Option Nat) :
    MatchResult :=
  match (roomScanList availability pref).findSome? (fun room =>
      (findIndexQualifying room.2 ws we d).map fun i => (room.1, room.2, i)) with
  | some (rid, slots, i) =>
    let chunk := (slots.drop i).take d
    match chunk.head? with
    | some s0 => MatchResult.Found rid s0.start (chunk.map (·.checksum))
    | none => MatchResult.NotFound
  | none => MatchResult.NotFound

theorem find?_first {α : Type} (l : List α) (p : α → Bool) (a : α)
    (h : l.find? p = some a) :
    ∃ k : Nat, l[k]? = some a ∧ p a = true
      ∧ ∀ j < k, ∀ b : α, l[j]? = some b → p b = false := by
  induction l with
  | nil => simp at h
  | cons x xs ih =>
    rw [List.find?_cons] at h
    cases hp : p x with
    | true =>
      rw [hp] at h
      have h' : some x = some a := h
      injection h' with h'
      subst h'
      refine ⟨0, by simp, hp, ?_⟩
      intro j hj
      omega
    | false =>
      rw [hp] at h
      have h' : List.find? p xs = some a := h
      obtain ⟨k, h1, h2, h3⟩ := ih h'
      refine ⟨k + 1, by simpa using h1, h2, ?_⟩
      intro j hj b hb
      cases j with
      | zero =>
        simp only [List.getElem?_cons_zero] at hb
        injection hb with hb
        subst hb
        exact hp
      | succ j =>
        exact h3 j (by omega) b (by simpa using hb)

theorem findSome?_first {α β : Type} (l : List α) (f : α → Option β) (b : β)
    (h : l.findSome? f = some b) :
    ∃ (k : Nat) (a : α), l[k]? = some a ∧ f a = some b
      ∧ ∀ j < k, ∀ a' : α, l[j]? = some a' → f a' = none := by
  induction l with
  | nil => simp at h
  | cons x xs ih =>
    rw [List.findSome?_cons] at h
    cases hf : f x with
    | some b' =>
      rw [hf] at h
      have h' : some b' = some b := h
      injection h' with h'
      subst h'
      refine ⟨0, x, by simp, hf, ?_⟩
      intro j hj
      omega
    | none =>
      rw [hf] at h
      have h' : List.findSome? f xs = some b := h
      obtain ⟨k, a, h1, h2, h3⟩ := ih h'
      refine ⟨k + 1, a, by simpa using h1, h2, ?_⟩
      intro j hj a' ha'
      cases j with
      | zero =>
        simp only [List.getElem?_cons_zero] at ha'
        injection ha' with ha'
        subst ha'
        exact hf
      | succ j =>
        exact h3 j (by omega) a' (by simpa using ha')

theorem findSome?_isSome_iff {α β : Type} (l : List α) (f : α → Option β) :
    (l.findSome? f).isSome = true ↔ ∃ a ∈ l, (f a).isSome = true := by
  induction l with
  | nil => simp
  | cons x xs ih =>
    rw [List.findSome?_cons]
    cases hf : f x with
    | some b => simp [hf]
    | none =>
      rw [ih]
      simp [hf]

end Engine

namespace Engine

theorem qualifiesAt_false_of_ge (slots : List AvailabilitySlot) (ws we d i : Nat)
    (hd : 1 ≤ d) (hi : slots.length ≤ i) : qualifiesAt slots ws we d i = false := by
  unfold qualifiesAt
  have hdrop : slots.drop i = [] := List.drop_eq_nil_of_le hi
  rw [hdrop]
  simp
  omega

theorem findIndexQualifying_eq_some (slots : List AvailabilitySlot) (ws we d i : Nat)
    (h : findIndexQualifying slots ws we d = some i) :
    i < slots.length ∧ qualifiesAt slots ws we d i = true
      ∧ ∀ j < i, qualifiesAt slots ws we d j = false := by
  obtain ⟨k, h1, h2, h3⟩ := find?_first _ _ _ h
  have hk : k < slots.length := by
    by_contra hk
    rw [List.getElem?_eq_none (by simpa [List.length_range] using hk)] at h1
    exact absurd h1 (by simp)
  have hik : i = k := by
    rw [List.getElem?_range hk] at h1
    injection h1 with h1
    exact h1.symm
  subst hik
  refine ⟨hk, h2, ?_⟩
  intro j hj
  exact h3 j hj j (List.getElem?_range (by omega))

theorem findIndexQualifying_isSome_iff (slots : List AvailabilitySlot) (ws we d : Nat)
    (hd : 1 ≤ d) :
    (findIndexQualifying slots ws we d).isSome = true ↔
      ∃ i, qualifiesAt slots ws we d i = true := by
  unfold findIndexQualifying
  rw [List.find?_isSome]
  constructor
  · rintro ⟨i, _, hq⟩
    exact ⟨i, hq⟩
  · rintro ⟨i, hq⟩
    refine ⟨i, List.mem_range.mpr ?_, hq⟩
    by_contra hlen
    rw [qualifiesAt_false_of_ge slots ws we d i hd (by omega)] at hq
    exact absurd hq (by simp)

theorem findIndexQualifying_eq_none (slots : List AvailabilitySlot) (ws we d : Nat)
    (hd : 1 ≤ d) (h : findIndexQualifying slots ws we d = none) :
    ∀ i, qualifiesAt slots ws we d i = false := by
  intro i
  by_contra hq
  have : (findIndexQualifying slots ws we d).isSome = true :=
    (findIndexQualifying_isSome_iff slots ws we d hd).mpr
      ⟨i, Bool.not_eq_false _ |>.mp hq⟩
  rw [h] at this
  exact absurd this (by simp)

end Engine

namespace Engine

theorem roomScanList_sorted (availability : Availability) (pref : Option Nat) :
    (roomScanList availability pref).Sorted fun a b => a.1 ≤ b.1 := by
  haveI : IsTotal (Nat × List AvailabilitySlot) (fun a b => a.1 ≤ b.1) :=
    ⟨fun a b => Nat.le_total a.1 b.1⟩
  haveI : IsTrans (Nat × List AvailabilitySlot) (fun a b => a.1 ≤ b.1) :=
    ⟨fun _ _ _ => Nat.le_trans⟩
  exact List.sorted_insertionSort _ _

theorem roomScanList_perm (availability : Availability) (pref : Option Nat) :
    (roomScanList availability pref).Perm (prefFilter availability pref) :=
  List.perm_insertionSort _ _

theorem slotMatch_found_of_findSome? (availability : Availability) (ws we d : Nat)
    (pref : Option Nat) (hd : 1 ≤ d) (rid : Nat) (slots : List AvailabilitySlot) (i : Nat)
    (hfs : (roomScanList availability pref).findSome? (fun room =>
        (findIndexQualifying room.2 ws we d).map fun j => (room.1, room.2, j)) =
      some (rid, slots, i)) :
    ∃ s0, ((slots.drop i).take d).head? = some s0
      ∧ slotMatch availability ws we d pref =
          MatchResult.Found rid s0.start (((slots.drop i).take d).map (·.checksum)) := by
  obtain ⟨k, room, hk, hf, hbefore⟩ := findSome?_first _ _ _ hfs
  rw [Option.map_eq_some'] at hf
  obtain ⟨j, hidx, heq⟩ := hf
  injection heq with h1 heq
  injection heq with h2 h3
  subst h1; subst h2; subst h3
  obtain ⟨_, hq, _⟩ := findIndexQualifying_eq_some _ _ _ _ _ hidx
  unfold qualifiesAt at hq
  simp only [Bool.and_eq_true, decide_eq_true_eq] at hq
  have hlen : ((room.2.drop j).take d).length = d := hq.1.1.1
  cases hc : (room.2.drop j).take d with
  | nil =>
    rw [hc] at hlen
    simp at hlen
    omega
  | cons a l =>
    refine ⟨a, rfl, ?_⟩
    unfold slotMatch
    rw [hfs]
    simp only
    rw [hc]
    rfl

theorem slotMatch_eq_NotFound_of_findSome?_none (availability : Availability)
    (ws we d : Nat) (pref : Option Nat)
    (hfs : (roomScanList availability pref).findSome? (fun room =>
        (findIndexQualifying room.2 ws we d).map fun j => (room.1, room.2, j)) = none) :
    slotMatch availability ws we d pref = MatchResult.NotFound := by
  unfold slotMatch
  rw [hfs]

/-- C3: the Slot Matcher scans the preference-filtered rooms in ascending
`roomId` order; `match` returns `Found` exactly when some scanned room has an
index whose `durationHours`-slot run is fully present, pairwise contiguous,
inside the window and available; the returned room and start index are the
first such pair in (room, index) order; and the returned run is contiguous,
available, inside the window, and of length `durationHours`, so no two chosen
slots are non-adjacent in time. -/
theorem slotMatcher_correct (availability : Availability) (ws we d : Nat)
    (pref : Option Nat) (hd : 1 ≤ d) :
    ((roomScanList availability pref).Sorted fun a b => a.1 ≤ b.1)
    ∧ ((roomScanList availability pref).Perm (prefFilter availability pref))
    ∧ (slotMatch availability ws we d pref ≠ MatchResult.NotFound ↔
        ∃ room ∈ prefFilter availability pref, ∃ i, qualifiesAt room.2 ws we d i = true)
    ∧ ∀ rid t cks, slotMatch availability ws we d pref = MatchResult.Found rid t cks →
        ∃ (k : Nat) (slots : List AvailabilitySlot) (i : Nat),
          (roomScanList availability pref)[k]? = some (rid, slots)
          ∧ (∀ k' < k, ∀ room' : Nat × List AvailabilitySlot,
              (roomScanList availability pref)[k']? = some room' →
              ∀ i', qualifiesAt room'.2 ws we d i' = false)
          ∧ qualifiesAt slots ws we d i = true
          ∧ (∀ j < i, qualifiesAt slots ws we d j = false)
          ∧ (∃ s0, ((slots.drop i).take d).head? = some s0 ∧ t = s0.start)
          ∧ cks = ((slots.drop i).take d).map (·.checksum)
          ∧ contiguousRun ((slots.drop i).take d) = true
          ∧ ((slots.drop i).take d).all (·.isAvailable) = true
          ∧ ((slots.drop i).take d).all
              (fun s => decide (ws ≤ s.start) && decide (s.finish ≤ we)) = true
          ∧ ((slots.drop i).take d).length = d := by
  refine ⟨roomScanList_sorted availability pref, roomScanList_perm availability pref, ?_, ?_⟩
  · constructor
    · intro hne
      cases hfs : (roomScanList availability pref).findSome? (fun room =>
          (findIndexQualifying room.2 ws we d).map fun j => (room.1, room.2, j)) with
      | none => exact absurd (slotMatch_eq_NotFound_of_findSome?_none _ _ _ _ _ hfs) hne
      | some v =>
        obtain ⟨rid, slots, i⟩ := v
        obtain ⟨k, room, hk, hf, _⟩ := findSome?_first _ _ _ hfs
        rw [Option.map_eq_some'] at hf
        obtain ⟨j, hidx, heq⟩ := hf
        obtain ⟨_, hq, _⟩ := findIndexQualifying_eq_some _ _ _ _ _ hidx
        have hmem : room ∈ roomScanList availability pref := by
          have hkl : k < (roomScanList availability pref).length := by
            by_contra hkl
            rw [List.getElem?_eq_none (by omega)] at hk
            exact absurd hk (by simp)
          exact List.mem_iff_getElem?.mpr ⟨k, hk⟩
        exact ⟨room, (roomScanList_perm availability pref).mem_iff.mp hmem, j, hq⟩
    · rintro ⟨room, hmem, i, hq⟩
      have hmem' : room ∈ roomScanList availability pref :=
        (roomScanList_perm availability pref).mem_iff.mpr hmem
      have hsome : ((roomScanList availability pref).findSome? (fun room =>
          (findIndexQualifying room.2 ws we d).map fun j => (room.1, room.2, j))).isSome
            = true := by
        rw [findSome?_isSome_iff]
        refine ⟨room, hmem', ?_⟩
        rw [Option.isSome_map']
        exact (findIndexQualifying_isSome_iff room.2 ws we d hd).mpr ⟨i, hq⟩
      obtain ⟨v, hfs⟩ := Option.isSome_iff_exists.mp hsome
      obtain ⟨rid, slots, j⟩ := v
      obtain ⟨s0, _, hfound⟩ :=
        slotMatch_found_of_findSome? availability ws we d pref hd rid slots j hfs
      rw [hfound]
      simp
  · intro rid t cks hfound
    cases hfs : (roomScanList availability pref).findSome? (fun room =>
        (findIndexQualifying room.2 ws we d).map fun j => (room.1, room.2, j)) with
    | none =>
      rw [slotMatch_eq_NotFound_of_findSome?_none _ _ _ _ _ hfs] at hfound
      exact absurd hfound (by simp)
    | some v =>
      obtain ⟨rid', slots', i'⟩ := v
      obtain ⟨s0, hs0, hfound'⟩ :=
        slotMatch_found_of_findSome? availability ws we d pref hd rid' slots' i' hfs
      rw [hfound'] at hfound
      injection hfound with e1 e2 e3
      subst e1; subst e2; subst e3
      obtain ⟨k, room, hk, hf, hbefore⟩ := findSome?_first _ _ _ hfs
      rw [Option.map_eq_some'] at hf
      obtain ⟨j, hidx, heq⟩ := hf
      injection heq with h1 heq
      injection heq with h2 h3
      obtain ⟨_, hq, hfirst⟩ := findIndexQualifying_eq_some _ _ _ _ _ hidx
      have hql := hq
      unfold qualifiesAt at hql
      simp only [Bool.and_eq_true, decide_eq_true_eq] at hql
      refine ⟨k, slots', i', ?_, ?_, ?_, ?_, ⟨s0, hs0, rfl⟩, rfl, ?_, ?_, ?_, ?_⟩
      · rw [hk, ← h1, ← h2]
      · intro k' hk' room' hk'some i'
        have := hbefore k' hk' room' hk'some
        rw [Option.map_eq_none'] at this
        exact findIndexQualifying_eq_none room'.2 ws we d hd this i'
      · rw [← h2, ← h3]; exact hq
      · rw [← h2, ← h3]; exact hfirst
      · rw [← h2, ← h3]
        exact hql.1.1.2
      · rw [← h2, ← h3]
        exact hql.2
      · rw [← h2, ← h3]
        rw [List.all_eq_true]
        intro s hs
        have := List.all_eq_true.mp hql.1.2 s hs
        simpa using this
      · rw [← h2, ← h3]
        simp [hql.1.1.1]

end Engine

namespace Engine

/-- The §8 scenario fixture: room 100 available 13:00–14:00, room 200
unavailable 13:00–14:00 but available 14:00–15:00, listed out of `roomId`
order. -/
def sampleAvail : Availability :=
  [(200, [{ roomId := 200, start := 13, finish := 14, checksum := "x", isAvailable := false },
          { roomId := 200, start := 14, finish := 15, checksum := "y", isAvailable := true }]),
   (100, [{ roomId := 100, start := 13, finish := 14, checksum := "z", isAvailable := true }])]

/-- Instantiation of `slotMatcher_correct` on the scenario fixture. -/
theorem slotMatcher_correct_witness :
    slotMatch sampleAvail 13 15 1 none ≠ MatchResult.NotFound :=
  (slotMatcher_correct sampleAvail 13 15 1 none (by decide)).2.2.1.mpr
    ⟨(100, [{ roomId := 100, start := 13, finish := 14, checksum := "z", isAvailable := true }]),
      by decide, 0, by decide⟩

end Engine

namespace Engine

/-- Modelled from the spec: `MonitoringRequest.status` values (§3, and the
status list of the deployment guide). -/
inductive Status where
  | active
  | completed
  | stopped
  | expired
  | error
  deriving Repr, DecidableEq

/-- Terminal statuses (§4.4): every status except `active`. -/
def Status.isTerminal : Status → Bool
  | .active => false
  | _ => true

/-- Modelled from the spec: `successDetails` (§3) — matched slots, upstream
booking confirmation id, completion timestamp. -/
structure SuccessDetails where
  slotChecksums : List String
  bookingId : String
  bookedAt : Nat
  deriving Repr, DecidableEq

/-- Modelled from the spec: the persistent `MonitoringRequest` entity (§3 and
the document structure in the deployment guide).  The backend implementation
is not among the checked-in sources. -/
structure MonitoringRequest where
  requestId : String
  email : String
  firstName : String
  lastName : String
  targetDate : Nat
  windowStart : Nat
  windowEnd : Nat
  durationHours : Nat
  roomPreference : Option Nat
  status : Status
  createdAt : Nat
  expiresAt : Nat
  lastCheckedAt : Option Nat
  checkCount : Nat
  successDetails : Option SuccessDetails
  errorMessage : Option String
  deriving Repr, DecidableEq

/-- Modelled from the spec: `AttemptOutcome` of the Booking Orchestrator
(§4.3).  `Booked` carries the upstream confirmation id when the upstream
confirmed directly, and `none` when the booking is pending the upstream's
own email confirmation. -/
inductive AttemptOutcome where
  | Booked (confirmationId : Option String)
  | SlotNoLongerAvailable
  | TransientFailure
  | PermanentFailure (reason : String)
  deriving Repr, DecidableEq

/-- Modelled from the spec: the observable result of the Upstream Client's
`submitBooking` sequence (§4.1) as seen by the orchestrator — the four
`BookingOutcome` values, a `Rejected` reason abstracted to whether it
indicates the slot was already taken, plus the malformed/unexpected-response
condition of §4.3. -/
inductive SubmitOutcome where
  | Confirmed (confirmationId : String)
  | PendingEmailConfirmation
  | Rejected (slotTaken : Bool) (reason : String)
  | UpstreamUnreachable
  | MalformedResponse (raw : String)
  deriving Repr, DecidableEq

/-- Modelled from the spec: the outcome translation of the Booking
Orchestrator (§4.3): `Confirmed`/`PendingEmailConfirmation` → `Booked`,
slot-taken rejection → `SlotNoLongerAvailable`, unreachable →
`TransientFailure`, malformed or unexpected response → `PermanentFailure`. -/
def attemptOutcomeOf : SubmitOutcome → AttemptOutcome
  | .Confirmed cid => .Booked (some cid)
  | .PendingEmailConfirmation => .Booked none
  | .Rejected true _ => .SlotNoLongerAvailable
  | .Rejected false reason => .PermanentFailure reason
  | .UpstreamUnreachable => .TransientFailure
  | .MalformedResponse raw => .PermanentFailure ("malformed upstream response: " ++ raw)

/-- Outcome of the availability fetch as seen by the Check Runner (§4.1):
parsed availability, network/timeout failure, or schema drift. -/
inductive FetchOutcome where
  | ok (availability : Availability)
  | unreachable
  | formatError
  deriving Repr, DecidableEq

/-- The environment one `runCheck` invocation runs against: whether the
storage layer is reachable, what the availability fetch returns, and what the
upstream booking sequence would answer. -/
structure CheckEnv where
  storageUp : Bool
  fetch : FetchOutcome
  book : SubmitOutcome
  deriving Repr, DecidableEq

/-- One outbound upstream call issued during a check. -/
inductive UpstreamCall where
  | fetchCall
  | bookCall
  deriving Repr, DecidableEq

/-- The `{ matched, booked, status }` result shape of `runCheck` (§6). -/
structure RunResult where
  matched : Bool
  booked : Bool
  status : Status
  deriving Repr, DecidableEq

/-- The only condition allowed to fail a `runCheck` invocation outright
(§7): storage-layer unavailability. -/
inductive StorageFailure where
  | unavailable
  deriving Repr, DecidableEq

/-- Modelled from the spec: the Check Runner (§4.4, §7) — one `runCheck`
invocation as a function of the stored record, the current time and the
environment.  Returns the updated record, the invocation result and the list
of upstream calls issued; fails only on storage unavailability. -/
def runCheck (req : MonitoringRequest) (now : Nat) (env : CheckEnv) :
    Except StorageFailure (MonitoringRequest × RunResult × List UpstreamCall) :=
  if env.storageUp = false then .error .unavailable
  else if req.status ≠ Status.active then
    .ok (req, ⟨false, false, req.status⟩, [])
  else if now > req.expiresAt then
    .ok ({ req with status := .expired }, ⟨false, false, .expired⟩, [])
  else
    match env.fetch with
    | .unreachable =>
      .ok ({ req with checkCount := req.checkCount + 1, lastCheckedAt := some now },
           ⟨false, false, .active⟩, [.fetchCall])
    | .formatError =>
      .ok ({ req with lastCheckedAt := some now }, ⟨false, false, .active⟩, [.fetchCall])
    | .ok availability =>
      match slotMatch availability req.windowStart req.windowEnd req.durationHours
          req.roomPreference with
      | .NotFound =>
        .ok ({ req with checkCount := req.checkCount + 1, lastCheckedAt := some now },
             ⟨false, false, .active⟩, [.fetchCall])
      | .Found _ _ cks =>
        match attemptOutcomeOf env.book with
        | .Booked cid =>
          .ok ({ req with
                  status := .completed,
                  successDetails := some ⟨cks, cid.getD ("pending-email-confirmation"), now⟩ },
               ⟨true, true, .completed⟩, [.fetchCall, .bookCall])
        | .SlotNoLongerAvailable =>
          .ok ({ req with checkCount := req.checkCount + 1, lastCheckedAt := some now },
               ⟨true, false, .active⟩, [.fetchCall, .bookCall])
        | .TransientFailure =>
          .ok ({ req with checkCount := req.checkCount + 1, lastCheckedAt := some now },
               ⟨true, false, .active⟩, [.fetchCall, .bookCall])
        | .PermanentFailure reason =>
          .ok ({ req with
                  status := .error,
                  errorMessage := some reason },
               ⟨true, false, .error⟩, [.fetchCall, .bookCall])

/-- Result of `stopRequest` (§6). -/
inductive StopResult where
  | success
  | alreadyTerminal
  deriving Repr, DecidableEq

/-- Modelled from the spec: `stopRequest` (§4.4, §6) — the conditional
transition `active → stopped`; a no-op answering `alreadyTerminal` on any
non-active record. -/
def stopRequest (req : MonitoringRequest) : MonitoringRequest × StopResult :=
  if req.status = Status.active then ({ req with status := .stopped }, .success)
  else (req, .alreadyTerminal)

/-- One operation applied to a stored record: a scheduler-driven check or a
user stop. -/
inductive Op where
  | check (now : Nat) (env : CheckEnv)
  | stop

/-- The record after one operation; a check that fails on storage writes
nothing. -/
def applyOp (req : MonitoringRequest) : Op → MonitoringRequest
  | .check now env =>
    match runCheck req now env with
    | .ok v => v.1
    | .error _ => req
  | .stop => (stopRequest req).1

/-- The record after a sequence of operations. -/
def runOps (req : MonitoringRequest) : List Op → MonitoringRequest
  | [] => req
  | op :: ops => runOps (applyOp req op) ops

end Engine

namespace Engine

/-- C8: the Booking Orchestrator outcome is exactly this function of the
upstream `submitBooking` outcome — `Confirmed` and `PendingEmailConfirmation`
both map to `Booked` (and nothing else does), a rejection indicating the slot
was taken maps to `SlotNoLongerAvailable`, `UpstreamUnreachable` maps to
`TransientFailure`, and a malformed or unexpected upstream response maps to
`PermanentFailure`. -/
theorem bookingOrchestrator_mapping :
    (∀ cid, attemptOutcomeOf (SubmitOutcome.Confirmed cid) = AttemptOutcome.Booked (some cid))
    ∧ attemptOutcomeOf SubmitOutcome.PendingEmailConfirmation = AttemptOutcome.Booked none
    ∧ (∀ o : SubmitOutcome, (∃ c, attemptOutcomeOf o = AttemptOutcome.Booked c) ↔
        ((∃ cid, o = SubmitOutcome.Confirmed cid) ∨ o = SubmitOutcome.PendingEmailConfirmation))
    ∧ (∀ reason, attemptOutcomeOf (SubmitOutcome.Rejected true reason) =
        AttemptOutcome.SlotNoLongerAvailable)
    ∧ attemptOutcomeOf SubmitOutcome.UpstreamUnreachable = AttemptOutcome.TransientFailure
    ∧ (∀ raw, ∃ r, attemptOutcomeOf (SubmitOutcome.MalformedResponse raw) =
        AttemptOutcome.PermanentFailure r)
    ∧ ∀ reason, ∃ r, attemptOutcomeOf (SubmitOutcome.Rejected false reason) =
        AttemptOutcome.PermanentFailure r := by
  refine ⟨fun cid => rfl, rfl, ?_, fun reason => rfl, rfl,
    fun raw => ⟨_, rfl⟩, fun reason => ⟨_, rfl⟩⟩
  intro o
  constructor
  · rintro ⟨c, hc⟩
    cases o with
    | Confirmed cid => exact Or.inl ⟨cid, rfl⟩
    | PendingEmailConfirmation => exact Or.inr rfl
    | Rejected taken reason => cases taken <;> simp [attemptOutcomeOf] at hc
    | UpstreamUnreachable => simp [attemptOutcomeOf] at hc
    | MalformedResponse raw => simp [attemptOutcomeOf] at hc
  · rintro (⟨cid, rfl⟩ | rfl)
    · exact ⟨some cid, rfl⟩
    · exact ⟨none, rfl⟩

/-- Instantiation of `bookingOrchestrator_mapping` at a concrete outcome. -/
theorem bookingOrchestrator_mapping_witness :
    attemptOutcomeOf SubmitOutcome.PendingEmailConfirmation = AttemptOutcome.Booked none :=
  bookingOrchestrator_mapping.2.1

theorem runCheck_nonactive (req : MonitoringRequest) (now : Nat) (env : CheckEnv)
    (h : req.status ≠ Status.active) :
    runCheck req now env = if env.storageUp = false then Except.error StorageFailure.unavailable
      else Except.ok (req, ⟨false, false, req.status⟩, []) := by
  unfold runCheck
  by_cases hs : env.storageUp = false
  · rw [if_pos hs, if_pos hs]
  · rw [if_neg hs, if_neg hs, if_pos h]

/-- Whether an `Except` result is a normal completion. -/
def isOkE {ε α : Type} : Except ε α → Bool
  | .ok _ => true
  | .error _ => false

theorem applyOp_nonactive (req : MonitoringRequest) (op : Op)
    (h : req.status ≠ Status.active) : applyOp req op = req := by
  cases op with
  | check now env =>
    show (match runCheck req now env with
      | Except.ok v => v.1
      | Except.error _ => req) = req
    rw [runCheck_nonactive req now env h]
    by_cases hs : env.storageUp = false
    · rw [if_pos hs]
    · rw [if_neg hs]
  | stop =>
    show (stopRequest req).1 = req
    unfold stopRequest
    rw [if_neg h]

/-- C4: `runCheck` on a `completed` record returns the record unchanged with
no upstream calls at all; a second immediate call does the same, so
`successDetails` is never touched and no duplicate booking call is issued;
and in general `runCheck` on any non-active record is a no-op. -/
theorem runCheck_idempotent_on_terminal (req : MonitoringRequest) (now now' : Nat)
    (env env' : CheckEnv) (hs : env.storageUp = true) (hs' : env'.storageUp = true)
    (hc : req.status = Status.completed) :
    runCheck req now env = Except.ok (req, ⟨false, false, Status.completed⟩, [])
    ∧ runCheck (applyOp req (Op.check now env)) now' env' =
        Except.ok (req, ⟨false, false, Status.completed⟩, [])
    ∧ ∀ (req₂ : MonitoringRequest) (now₂ : Nat) (env₂ : CheckEnv),
        env₂.storageUp = true → req₂.status ≠ Status.active →
        runCheck req₂ now₂ env₂ = Except.ok (req₂, ⟨false, false, req₂.status⟩, []) := by
  have hgen : ∀ (req₂ : MonitoringRequest) (now₂ : Nat) (env₂ : CheckEnv),
      env₂.storageUp = true → req₂.status ≠ Status.active →
      runCheck req₂ now₂ env₂ = Except.ok (req₂, ⟨false, false, req₂.status⟩, []) := by
    intro req₂ now₂ env₂ h1 h2
    rw [runCheck_nonactive req₂ now₂ env₂ h2, if_neg (by simp [h1])]
  have hne : req.status ≠ Status.active := by rw [hc]; simp
  have h1 := hgen req now env hs hne
  have happ : applyOp req (Op.check now env) = req := applyOp_nonactive req _ hne
  refine ⟨by rw [h1, hc], ?_, hgen⟩
  rw [happ, hgen req now' env' hs' hne, hc]

/-- C5: a transient upstream fetch failure is absorbed — `runCheck` returns
normally, the record stays `active` with `checkCount` incremented and
`lastCheckedAt` set, only the fetch call was issued; and, in general, any
invocation with reachable storage completes normally, whatever the upstream
does. -/
theorem runCheck_transient_absorbed (req : MonitoringRequest) (now : Nat) (env : CheckEnv)
    (hs : env.storageUp = true) (ha : req.status = Status.active)
    (hexp : ¬ now > req.expiresAt) (hf : env.fetch = FetchOutcome.unreachable) :
    runCheck req now env = Except.ok
      ({ req with checkCount := req.checkCount + 1, lastCheckedAt := some now },
       ⟨false, false, Status.active⟩, [UpstreamCall.fetchCall])
    ∧ ∀ (req₂ : MonitoringRequest) (now₂ : Nat) (env₂ : CheckEnv), env₂.storageUp = true →
        ∃ v, runCheck req₂ now₂ env₂ = Except.ok v := by
  constructor
  · unfold runCheck
    rw [if_neg (by simp [hs]), if_neg (by simp [ha]), if_neg hexp, hf]
  · intro req₂ now₂ env₂ h
    have hok : isOkE (runCheck req₂ now₂ env₂) = true := by
      unfold runCheck
      rw [if_neg (by simp [h])]
      repeat' split
      all_goals rfl
    cases hrc : runCheck req₂ now₂ env₂ with
    | ok v => exact ⟨v, rfl⟩
    | error e =>
      rw [hrc] at hok
      exact absurd hok (by simp [isOkE])

/-- C6: on an active record whose expiry has passed, `runCheck` transitions
`active → expired`, issues no upstream call, and changes nothing else on the
record. -/
theorem runCheck_expires_without_fetch (req : MonitoringRequest) (now : Nat)
    (env : CheckEnv) (hs : env.storageUp = true) (ha : req.status = Status.active)
    (hexp : now > req.expiresAt) :
    ∃ req' : MonitoringRequest,
      runCheck req now env = Except.ok (req', ⟨false, false, Status.expired⟩, [])
      ∧ req'.status = Status.expired
      ∧ req'.checkCount = req.checkCount
      ∧ req'.lastCheckedAt = req.lastCheckedAt
      ∧ req'.successDetails = req.successDetails
      ∧ req'.errorMessage = req.errorMessage := by
  refine ⟨{ req with status := Status.expired }, ?_, rfl, rfl, rfl, rfl, rfl⟩
  unfold runCheck
  rw [if_neg (by simp [hs]), if_neg (by simp [ha]), if_pos hexp]

end Engine

namespace Engine

/-- A concrete environment with reachable storage and an unreachable
upstream. -/
def sampleEnv : CheckEnv :=
  { storageUp := true, fetch := FetchOutcome.unreachable,
    book := SubmitOutcome.PendingEmailConfirmation }

/-- A concrete `completed` record. -/
def sampleCompletedReq : MonitoringRequest :=
  { requestId := "2025-06-24_13-00_1", email := "a@baruchmail.cuny.edu",
    firstName := "A", lastName := "B", targetDate := 20250624, windowStart := 13,
    windowEnd := 15, durationHours := 1, roomPreference := none,
    status := Status.completed, createdAt := 1, expiresAt := 10,
    lastCheckedAt := some 4, checkCount := 3,
    successDetails := some { slotChecksums := ["z"], bookingId := "b1", bookedAt := 5 },
    errorMessage := none }

/-- A concrete `active` record expiring at time 10. -/
def sampleActiveReq : MonitoringRequest :=
  { requestId := "2025-06-24_13-00_2", email := "a@baruchmail.cuny.edu",
    firstName := "A", lastName := "B", targetDate := 20250624, windowStart := 13,
    windowEnd := 15, durationHours := 1, roomPreference := none,
    status := Status.active, createdAt := 1, expiresAt := 10,
    lastCheckedAt := none, checkCount := 3,
    successDetails := none, errorMessage := none }

/-- Instantiation of `runCheck_idempotent_on_terminal` on a concrete
completed record. -/
theorem runCheck_idempotent_on_terminal_witness :
    runCheck sampleCompletedReq 6 sampleEnv =
      Except.ok (sampleCompletedReq, ⟨false, false, Status.completed⟩, []) :=
  (runCheck_idempotent_on_terminal sampleCompletedReq 6 7 sampleEnv sampleEnv
    rfl rfl rfl).1

/-- Instantiation of `runCheck_transient_absorbed` on a concrete active
record at time 5. -/
theorem runCheck_transient_absorbed_witness :
    runCheck sampleActiveReq 5 sampleEnv = Except.ok
      ({ sampleActiveReq with
          checkCount := sampleActiveReq.checkCount + 1, lastCheckedAt := some 5 },
       ⟨false, false, Status.active⟩, [UpstreamCall.fetchCall]) :=
  (runCheck_transient_absorbed sampleActiveReq 5 sampleEnv rfl rfl (by decide) rfl).1

/-- Instantiation of `runCheck_expires_without_fetch` at time 11 on a record
expiring at time 10. -/
theorem runCheck_expires_without_fetch_witness :
    ∃ req' : MonitoringRequest,
      runCheck sampleActiveReq 11 sampleEnv =
        Except.ok (req', ⟨false, false, Status.expired⟩, [])
      ∧ req'.status = Status.expired
      ∧ req'.checkCount = sampleActiveReq.checkCount
      ∧ req'.lastCheckedAt = sampleActiveReq.lastCheckedAt
      ∧ req'.successDetails = sampleActiveReq.successDetails
      ∧ req'.errorMessage = sampleActiveReq.errorMessage :=
  runCheck_expires_without_fetch sampleActiveReq 11 sampleEnv rfl rfl (by decide)

theorem runOps_append (req : MonitoringRequest) (ops₁ ops₂ : List Op) :
    runOps req (ops₁ ++ ops₂) = runOps (runOps req ops₁) ops₂ := by
  induction ops₁ generalizing req with
  | nil => rfl
  | cons op ops ih =>
    rw [List.cons_append]
    exact ih (applyOp req op)

/-- C2: the status lifecycle is monotonic — every operation on a non-active
record leaves the record unchanged, so once a terminal status is reached no
later sequence of operations changes anything (no state reappears after a
terminal state); a record can only be active before an operation that leaves
it active; and from `active` one step lands in `active` or a terminal
status. -/
theorem statusMachine_monotonic :
    (∀ (req : MonitoringRequest) (op : Op), req.status ≠ Status.active → applyOp req op = req)
    ∧ (∀ (req : MonitoringRequest) (ops₁ ops₂ : List Op),
        (runOps req ops₁).status ≠ Status.active →
        runOps req (ops₁ ++ ops₂) = runOps req ops₁)
    ∧ (∀ (req : MonitoringRequest) (op : Op),
        (applyOp req op).status = Status.active → req.status = Status.active)
    ∧ ∀ (req : MonitoringRequest) (op : Op), req.status = Status.active →
        (applyOp req op).status = Status.active ∨
          ((applyOp req op).status ≠ Status.active ∧
            (applyOp req op).status.isTerminal = true) := by
  have habs : ∀ (req : MonitoringRequest) (ops : List Op),
      req.status ≠ Status.active → runOps req ops = req := by
    intro req ops h
    induction ops with
    | nil => rfl
    | cons op ops ih =>
      show runOps (applyOp req op) ops = req
      rw [applyOp_nonactive req op h]
      exact ih
  refine ⟨fun req op h => applyOp_nonactive req op h, ?_, ?_, ?_⟩
  · intro req ops₁ ops₂ h
    rw [runOps_append]
    exact habs _ _ h
  · intro req op h
    by_contra hne
    rw [applyOp_nonactive req op hne] at h
    exact hne h
  · intro req op _
    by_cases h' : (applyOp req op).status = Status.active
    · exact Or.inl h'
    · refine Or.inr ⟨h', ?_⟩
      cases hs : (applyOp req op).status <;> first | rfl | (exact absurd hs h')

/-- Instantiation of `statusMachine_monotonic` on a concrete terminal
record. -/
theorem statusMachine_monotonic_witness :
    applyOp sampleCompletedReq Op.stop = sampleCompletedReq :=
  statusMachine_monotonic.1 sampleCompletedReq Op.stop (by decide)

end Engine

namespace Engine

/-- The §3 record invariant: `successDetails` only on `completed`,
`errorMessage` only on `error`, never both, and both empty while `active`. -/
def RecordInvariant (req : MonitoringRequest) : Prop :=
  (req.successDetails.isSome = true → req.status = Status.completed)
  ∧ (req.errorMessage.isSome = true → req.status = Status.error)
  ∧ ¬(req.successDetails.isSome = true ∧ req.errorMessage.isSome = true)
  ∧ (req.status = Status.active → req.successDetails = none ∧ req.errorMessage = none)

/-- The creation-time inputs of a monitoring request (§6 `createRequest`). -/
structure RequestParams where
  requestId : String
  email : String
  firstName : String
  lastName : String
  targetDate : Nat
  windowStart : Nat
  windowEnd : Nat
  durationHours : Nat
  roomPreference : Option Nat
  createdAt : Nat
  expiresAt : Nat
  deriving Repr, DecidableEq

/-- Modelled from the spec: a freshly created monitoring request (§3
lifecycle) — created `active` with empty diagnostics and outcome fields. -/
def mkFreshRequest (p : RequestParams) : MonitoringRequest :=
  { requestId := p.requestId, email := p.email, firstName := p.firstName,
    lastName := p.lastName, targetDate := p.targetDate, windowStart := p.windowStart,
    windowEnd := p.windowEnd, durationHours := p.durationHours,
    roomPreference := p.roomPreference, status := Status.active,
    createdAt := p.createdAt, expiresAt := p.expiresAt, lastCheckedAt := none,
    checkCount := 0, successDetails := none, errorMessage := none }

theorem runCheck_ok_shape (req : MonitoringRequest) (now : Nat) (env : CheckEnv)
    (v : MonitoringRequest × RunResult × List UpstreamCall)
    (hact : req.status = Status.active) (h : runCheck req now env = Except.ok v) :
    v.1 = { req with status := Status.expired }
    ∨ (∃ c l, v.1 = { req with checkCount := c, lastCheckedAt := l })
    ∨ (∃ sd, v.1 = { req with status := Status.completed, successDetails := some sd })
    ∨ ∃ msg, v.1 = { req with status := Status.error, errorMessage := some msg } := by
  unfold runCheck at h
  split_ifs at h with h1 h2 h3
  · exact absurd hact h2
  · injection h with h
    rw [← h]
    exact Or.inl rfl
  · split at h
    · injection h with h
      rw [← h]
      exact Or.inr (Or.inl ⟨req.checkCount + 1, some now, rfl⟩)
    · injection h with h
      rw [← h]
      exact Or.inr (Or.inl ⟨req.checkCount, some now, rfl⟩)
    · split at h
      · injection h with h
        rw [← h]
        exact Or.inr (Or.inl ⟨req.checkCount + 1, some now, rfl⟩)
      · split at h
        · injection h with h
          rw [← h]
          exact Or.inr (Or.inr (Or.inl ⟨_, rfl⟩))
        · injection h with h
          rw [← h]
          exact Or.inr (Or.inl ⟨req.checkCount + 1, some now, rfl⟩)
        · injection h with h
          rw [← h]
          exact Or.inr (Or.inl ⟨req.checkCount + 1, some now, rfl⟩)
        · injection h with h
          rw [← h]
          exact Or.inr (Or.inr (Or.inr ⟨_, rfl⟩))

theorem recordInvariant_step (req : MonitoringRequest) (op : Op)
    (h : RecordInvariant req) : RecordInvariant (applyOp req op) := by
  by_cases hact : req.status = Status.active
  · obtain ⟨h1, h2, h3, h4⟩ := h
    obtain ⟨hsd, hem⟩ := h4 hact
    cases op with
    | stop =>
      show RecordInvariant (stopRequest req).1
      unfold stopRequest
      rw [if_pos hact]
      exact ⟨by simp [hsd], by simp [hem], by simp [hsd], by simp⟩
    | check now env =>
      show RecordInvariant (match runCheck req now env with
        | Except.ok v => v.1
        | Except.error _ => req)
      cases hrc : runCheck req now env with
      | error e => exact ⟨h1, h2, h3, h4⟩
      | ok v =>
        show RecordInvariant v.1
        rcases runCheck_ok_shape req now env v hact hrc with
          hsh | ⟨c, l, hsh⟩ | ⟨sd, hsh⟩ | ⟨msg, hsh⟩ <;> rw [hsh]
        · exact ⟨by simp [hsd], by simp [hem], by simp [hsd], by simp⟩
        · exact ⟨by simp [hsd], by simp [hem], by simp [hsd],
            fun _ => ⟨by simp [hsd], by simp [hem]⟩⟩
        · exact ⟨fun _ => rfl, by simp [hem], by simp [hem], by simp⟩
        · exact ⟨by simp [hsd], fun _ => rfl, by simp [hsd], by simp⟩
  · rw [applyOp_nonactive req op hact]
    exact h

/-- C7: every record reachable from a freshly created request by any sequence
of checks and stops satisfies the invariant — `successDetails` populated only
on `completed`, `errorMessage` only on `error`, never both, and both empty
while `active`. -/
theorem recordInvariant_reachable (p : RequestParams) (ops : List Op) :
    RecordInvariant (runOps (mkFreshRequest p) ops) := by
  have hrun : ∀ (ops' : List Op) (req : MonitoringRequest),
      RecordInvariant req → RecordInvariant (runOps req ops') := by
    intro ops'
    induction ops' with
    | nil => intro req h; exact h
    | cons op ops' ih =>
      intro req h
      exact ih _ (recordInvariant_step req op h)
  exact hrun ops _ ⟨by simp [mkFreshRequest], by simp [mkFreshRequest],
    by simp [mkFreshRequest], fun _ => ⟨rfl, rfl⟩⟩

/-- Instantiation of `recordInvariant_reachable` on a concrete request and
operation sequence. -/
theorem recordInvariant_reachable_witness :
    RecordInvariant (runOps (mkFreshRequest
      { requestId := "r", email := "a@baruchmail.cuny.edu", firstName := "A",
        lastName := "B", targetDate := 20250624, windowStart := 13, windowEnd := 15,
        durationHours := 1, roomPreference := none, createdAt := 1, expiresAt := 10 })
      [Op.check 5 sampleEnv, Op.stop, Op.stop]) :=
  recordInvariant_reachable _ _

end Engine

namespace Engine

/-- Modelled from the spec: the phases of one `runCheck` invocation in the §5
race — it first loads the record and, while it is `active`, observes a match
and books against the (stub) upstream without touching the store, then
commits through an atomic compare-and-set that re-checks `status` and
discards the result if the record is no longer `active`. -/
inductive Phase where
  | start
  | booked
  | done (wroteCompleted : Bool)
  deriving Repr, DecidableEq

/-- One atomic step of one runner against the shared store. -/
def stepRunner (store : MonitoringRequest) (ph : Phase) (details : SuccessDetails) :
    MonitoringRequest × Phase :=
  match ph with
  | .start =>
    if store.status = Status.active then (store, .booked)
    else (store, .done false)
  | .booked =>
    if store.status = Status.active then
      ({ store with status := Status.completed, successDetails := some details },
       .done true)
    else (store, .done false)
  | .done w => (store, .done w)

/-- Two concurrent invocations interleaved by a schedule: `true` steps runner
A, `false` steps runner B; each step is atomic against the store. -/
def runRace : MonitoringRequest → Phase → Phase → SuccessDetails → SuccessDetails →
    List Bool → MonitoringRequest × Phase × Phase
  | store, pa, pb, _, _, [] => (store, pa, pb)
  | store, pa, pb, dA, dB, true :: rest =>
    runRace (stepRunner store pa dA).1 (stepRunner store pa dA).2 pb dA dB rest
  | store, pa, pb, dA, dB, false :: rest =>
    runRace (stepRunner store pb dB).1 pa (stepRunner store pb dB).2 dA dB rest

/-- C1: for every interleaving of two complete `runCheck` invocations on the
same active record in which both observe a match and both succeed upstream,
exactly one invocation transitions the stored record to `completed`; the
other observes the already-terminal record at commit time and discards its
result, writing nothing — the final store is exactly the winner's single
write. -/
theorem raceSafety (req : MonitoringRequest) (dA dB : SuccessDetails) (sched : List Bool)
    (ha : req.status = Status.active) (hlen : sched.length = 4)
    (hcount : sched.count true = 2) :
    ∃ wa wb : Bool,
      (runRace req Phase.start Phase.start dA dB sched).2.1 = Phase.done wa
      ∧ (runRace req Phase.start Phase.start dA dB sched).2.2 = Phase.done wb
      ∧ (wa = true ↔ wb = false)
      ∧ (runRace req Phase.start Phase.start dA dB sched).1.status = Status.completed
      ∧ (wa = true → (runRace req Phase.start Phase.start dA dB sched).1 =
          { req with status := Status.completed, successDetails := some dA })
      ∧ (wb = true → (runRace req Phase.start Phase.start dA dB sched).1 =
          { req with status := Status.completed, successDetails := some dB }) := by
  obtain ⟨c1, c2, c3, c4, rfl⟩ : ∃ c1 c2 c3 c4, sched = [c1, c2, c3, c4] := by
    rcases sched with _ | ⟨c1, _ | ⟨c2, _ | ⟨c3, _ | ⟨c4, _ | ⟨c5, rest⟩⟩⟩⟩⟩
    · simp at hlen
    · simp at hlen
    · simp at hlen
    · simp at hlen
    · exact ⟨c1, c2, c3, c4, rfl⟩
    · simp at hlen
  cases c1 <;> cases c2 <;> cases c3 <;> cases c4
  all_goals first
    | exact absurd hcount (by decide)
    | ((refine ⟨true, false, ?_, ?_, ?_, ?_, ?_, ?_⟩ <;>
        simp [runRace, stepRunner, ha]); done)
    | ((refine ⟨false, true, ?_, ?_, ?_, ?_, ?_, ?_⟩ <;>
        simp [runRace, stepRunner, ha]); done)

/-- Concrete booking details for the race fixture. -/
def sampleDetails : SuccessDetails :=
  { slotChecksums := ["z"], bookingId := "b1", bookedAt := 5 }

/-- Instantiation of `raceSafety` on a concrete active record and the
alternating schedule. -/
theorem raceSafety_witness :
    ∃ wa wb : Bool,
      (runRace sampleActiveReq Phase.start Phase.start sampleDetails sampleDetails
        [true, false, true, false]).2.1 = Phase.done wa
      ∧ (runRace sampleActiveReq Phase.start Phase.start sampleDetails sampleDetails
          [true, false, true, false]).2.2 = Phase.done wb
      ∧ (wa = true ↔ wb = false)
      ∧ (runRace sampleActiveReq Phase.start Phase.start sampleDetails sampleDetails
          [true, false, true, false]).1.status = Status.completed
      ∧ (wa = true → (runRace sampleActiveReq Phase.start Phase.start sampleDetails
          sampleDetails [true, false, true, false]).1 =
          { sampleActiveReq with
              status := Status.completed, successDetails := some sampleDetails })
      ∧ (wb = true → (runRace sampleActiveReq Phase.start Phase.start sampleDetails
          sampleDetails [true, false, true, false]).1 =
          { sampleActiveReq with
              status := Status.completed, successDetails := some sampleDetails }) :=
  raceSafety sampleActiveReq sampleDetails sampleDetails [true, false, true, false]
    rfl rfl (by decide)

end Engine
